import Mathlib

/-!
Shallow embedding of the coldiron Netpbm library (src/lib.rs).

Streams are modelled as lists of byte values (`List Nat`, entries 0–255).
The Rust code reads text line by line through `BufRead::read_line`; all the
inputs considered below are ASCII, so the byte-level model of trimming,
whitespace splitting and numeric parsing coincides with Rust's `char`-level
operations.  Fallible operations return `Except RunErr`; a Rust panic
(`expect`, `unwrap`, `unimplemented!`, out-of-bounds indexing, integer
underflow in debug builds) is modelled by the distinguished error
constructor `RunErr.panicked`, which is *not* a recoverable `io::Error`.
Loops whose Rust termination argument is "each iteration consumes at least
one byte of the stream" are written with an explicit fuel parameter so that
they stay structurally recursive; the entry points pass `stream.length + 1`
fuel, which is always sufficient, and exhaustion would surface as the
distinguished `RunErr.outOfFuel` value (never produced on the inputs below).
-/

/-- Format of a Netpbm image (`enum Format` in the source). -/
inductive Format where
  | Bitmap
  | Graymap
  | Pixmap
deriving DecidableEq, Repr

/-- Mirrors `Format::from_magic_number`. -/
def Format.from_magic_number (magic_number : String) : Option Format :=
  if magic_number = "P1" ∨ magic_number = "P4" then some Format.Bitmap
  else if magic_number = "P2" ∨ magic_number = "P5" then some Format.Graymap
  else if magic_number = "P3" ∨ magic_number = "P6" then some Format.Pixmap
  else none

/-- Encoding for writing a Netpbm image (`enum Encoding` in the source). -/
inductive Encoding where
  | Ascii
  | Binary
deriving DecidableEq, Repr

/-- Mirrors `Encoding::from_magic_number` (note the source's arm
`"P1" | "P3" | "P5" => Some(Encoding::Ascii)` and
`"P2" | "P4" | "P6" => Some(Encoding::Binary)`). -/
def Encoding.from_magic_number (magic_number : String) : Option Encoding :=
  if magic_number = "P1" ∨ magic_number = "P3" ∨ magic_number = "P5" then
    some Encoding.Ascii
  else if magic_number = "P2" ∨ magic_number = "P4" ∨ magic_number = "P6" then
    some Encoding.Binary
  else none

/-- RGB color with 8 bits per channel (`struct Color8`); channel values are
byte values. -/
structure Color8 where
  red : Nat
  green : Nat
  blue : Nat
deriving DecidableEq, Repr

/-- `ImageData` from the source: the three pixel-buffer shapes. -/
inductive ImageData where
  | Bitmap (data : List Nat)
  | Graymap8 (data : List Nat)
  | Pixmap (data : List Color8)
deriving DecidableEq, Repr

/-- `struct Image` from the source. -/
structure Image where
  width : Nat
  height : Nat
  format : Format
  data : ImageData
deriving DecidableEq, Repr

/-- Runtime outcome of a fallible operation.  `unexpectedEof` and
`invalidData` model the `io::Error` kinds the source constructs;
`panicked` models a process abort (panic), which in Rust is *not* an
`io::Error` and does not return to the caller; `outOfFuel` is the
never-reached fuel sentinel described in the header comment. -/
inductive RunErr where
  | unexpectedEof
  | invalidData (msg : String)
  | panicked (msg : String)
  | outOfFuel
deriving DecidableEq, Repr

deriving instance DecidableEq for Except

/-- Byte values Rust's `char::is_whitespace` accepts in the ASCII range. -/
def isWspace (c : Nat) : Bool :=
  c == 9 || c == 10 || c == 11 || c == 12 || c == 13 || c == 32

/-- Models `str::trim` on ASCII bytes. -/
def trimBytes (l : List Nat) : List Nat :=
  ((l.dropWhile (fun c => isWspace c)).reverse.dropWhile (fun c => isWspace c)).reverse

/-- Models `str::split_whitespace` on ASCII bytes: maximal runs of
non-whitespace bytes, in order, no empty tokens. -/
def splitWsAux : List Nat → List Nat → List (List Nat)
  | [], cur => if cur.isEmpty then [] else [cur.reverse]
  | c :: cs, cur =>
    if isWspace c then
      if cur.isEmpty then splitWsAux cs [] else cur.reverse :: splitWsAux cs []
    else splitWsAux cs (c :: cur)

def splitWs (l : List Nat) : List (List Nat) := splitWsAux l []

def digitVal (c : Nat) : Option Nat :=
  if 48 ≤ c ∧ c ≤ 57 then some (c - 48) else none

def parseDigits : List Nat → Nat → Option Nat
  | [], acc => some acc
  | c :: cs, acc =>
    match digitVal c with
    | some d => parseDigits cs (acc * 10 + d)
    | none => none

/-- Models Rust's `str::parse` for an unsigned integer type with the given
upper bound: an optional leading plus sign, then at least one decimal
digit, and the value must fit the type. -/
def parseNatBounded (bound : Nat) (l : List Nat) : Option Nat :=
  let l2 := match l with
    | 43 :: rest => rest
    | _ => l
  match l2 with
  | [] => none
  | _ =>
    match parseDigits l2 0 with
    | some n => if n ≤ bound then some n else none
    | none => none

/-- `str::parse::<u16>`. -/
def parseU16 (l : List Nat) : Option Nat := parseNatBounded 65535 l

/-- `str::parse::<usize>` (64-bit). -/
def parseUsize (l : List Nat) : Option Nat := parseNatBounded (2 ^ 64 - 1) l

/-- Models `BufRead::read_line`: everything up to and including the first
newline byte (or the whole rest of the stream when it holds none). -/
def readLine : List Nat → List Nat × List Nat
  | [] => ([], [])
  | c :: cs =>
    if c = 10 then ([c], cs)
    else
      let p := readLine cs
      (c :: p.1, p.2)

/-- The shared `next_line` helper of the source: read lines, skipping any
line that is empty after trimming or starts with a number-sign byte 35;
return the trimmed line.  Zero bytes read means end of stream, reported as
`Unexpected EOF`. -/
def nextLine : Nat → List Nat → Except RunErr (List Nat × List Nat)
  | 0, _ => .error .outOfFuel
  | fuel + 1, s =>
    if s.isEmpty then .error .unexpectedEof
    else
      let p := readLine s
      let t := trimBytes p.1
      if t.isEmpty ∨ t.headD 0 = 35 then nextLine fuel p.2
      else .ok (t, p.2)

/-- Byte values of a string literal (used only to state theorems about
concrete streams). -/
def bytes (s : String) : List Nat := s.toList.map Char.toNat

/-- String made from a byte list (used where the source passes a `&str`). -/
def strOfBytes (l : List Nat) : String := String.mk (l.map Char.ofNat)

/-- The token-consuming inner loop of `read_header`'s dimension parsing:
push each parsed `usize` token, stop (discarding the remaining tokens of
the line) once two dimensions are collected, fail on a non-numeric token. -/
def takeDims : List (List Nat) → List Nat → Except RunErr (List Nat)
  | [], acc => .ok acc
  | t :: ts, acc =>
    match parseUsize t with
    | some n =>
      let acc2 := acc ++ [n]
      if acc2.length = 2 then .ok acc2 else takeDims ts acc2
    | none => .error (.invalidData "Invalid dimension value")

/-- The `while dimensions.len() < 2` loop of `read_header`. -/
def readDims : Nat → List Nat → List Nat → Except RunErr (List Nat × List Nat)
  | 0, _, _ => .error .outOfFuel
  | fuel + 1, s, acc =>
    if acc.length ≥ 2 then .ok (acc, s)
    else do
      let (text, rest) ← nextLine (fuel + 1) s
      let acc2 ← takeDims (splitWs text) acc
      readDims fuel rest acc2

/-- Mirrors `read_header`: magic-number line, two dimension tokens
(accumulated across lines, remaining tokens of the final line discarded),
then — exactly for the magics P2, P3, P5, P6 — one maxval line parsed as
`u16`.  Returns the header fields and the unconsumed rest of the stream. -/
def read_header (s : List Nat) :
    Except RunErr (String × Nat × Nat × Option Nat × List Nat) := do
  let fuel := s.length + 1
  let (magicB, s1) ← nextLine fuel s
  let magic := strOfBytes magicB
  let (dims, s2) ← readDims fuel s1 []
  let width := dims.getD 0 0
  let height := dims.getD 1 0
  if magic = "P2" ∨ magic = "P3" ∨ magic = "P5" ∨ magic = "P6" then
    let (mv, s3) ← nextLine fuel s2
    match parseU16 mv with
    | some v => .ok (magic, width, height, some v, s3)
    | none => .error (.invalidData "Invalid maxval")
  else
    .ok (magic, width, height, none, s2)

/-- Models `Read::read_exact` into a buffer of `n` bytes: fails with
`UnexpectedEof` when the stream is shorter. -/
def read_exact (s : List Nat) (n : Nat) : Except RunErr (List Nat × List Nat) :=
  if s.length < n then .error .unexpectedEof else .ok (s.take n, s.drop n)

/-- The line loop of `read_pbm_ascii`: while fewer than `byteCount` values
have been collected, take the next non-comment line and turn every
non-whitespace byte into a pixel (byte 48, the digit zero, gives 0, any
other byte gives 1). -/
def pbmAsciiLoop : Nat → List Nat → List Nat → Nat → Except RunErr (List Nat)
  | 0, _, _, _ => .error .outOfFuel
  | fuel + 1, s, acc, byteCount =>
    if acc.length < byteCount then do
      let (line, rest) ← nextLine (fuel + 1) s
      let vals := (line.filter (fun c => !isWspace c)).map
        (fun c => if c = 48 then 0 else 1)
      pbmAsciiLoop fuel rest (acc ++ vals) byteCount
    else .ok acc

/-- Mirrors `read_pbm_ascii`. -/
def read_pbm_ascii (s : List Nat) (width height : Nat) :
    Except RunErr ImageData := do
  let bs ← pbmAsciiLoop (s.length + 1) s [] (height * width)
  .ok (ImageData.Bitmap bs)

/-- Mirrors `read_pbm_binary`, including the source's buffer handling: a
buffer of `height * width` zeros is allocated up front and the unpacked
bits are then *appended* to it, one per `1 << i` test with `i` running from
0 to 7 (least-significant bit first). -/
def read_pbm_binary (s : List Nat) (width height : Nat) :
    Except RunErr ImageData := do
  let byteCount := height * ((width + 7) / 8)
  let (buf, _) ← read_exact s byteCount
  let unpacked := buf.flatMap
    (fun b => (List.range 8).map (fun i => if b.testBit i then 1 else 0))
  .ok (ImageData.Bitmap (List.replicate (height * width) 0 ++ unpacked))

/-- Models the Rust expression `(value as f32 / max_value as f32) as u8`.
Both operands are `u16` values, hence exactly representable in `f32`.  The
`f32` quotient is the correctly rounded rational v/m; rounding moves it by
at most half an ulp, which is at most (v/m)·2⁻²⁴ < 1/m because v < 2²⁴, so
rounding never carries the quotient across an integer boundary, and
truncating the `f32` quotient toward zero equals natural division v / m.
The `as u8` cast truncates toward zero and saturates to 0–255; it maps the
NaN arising from 0/0 to 0 and the infinity arising from v/0 (v positive)
to 255, which the `m = 0` branch reproduces. -/
def f32DivAsU8 (v m : Nat) : Nat :=
  if m = 0 then (if v = 0 then 0 else 255) else min (v / m) 255

/-- The token loop shared by `read_pgm_ascii`'s line loop: parse each token
as `u16` (`expect` panics on failure), rescale through the `max_value`
match of the source, append. -/
def pgmTokens (maxv : Option Nat) : List (List Nat) → List Nat →
    Except RunErr (List Nat)
  | [], acc => .ok acc
  | t :: ts, acc =>
    match parseU16 t with
    | none => .error (.panicked "Invalid color value")
    | some value =>
      let b := match maxv with
        | some m => f32DivAsU8 value m
        | none => value % 256
      pgmTokens maxv ts (acc ++ [b])

/-- The line loop of `read_pgm_ascii`. -/
def pgmAsciiLoop (maxv : Option Nat) :
    Nat → List Nat → List Nat → Nat → Except RunErr (List Nat)
  | 0, _, _, _ => .error .outOfFuel
  | fuel + 1, s, acc, byteCount =>
    if acc.length < byteCount then do
      let (line, rest) ← nextLine (fuel + 1) s
      let acc2 ← pgmTokens maxv (splitWs line) acc
      pgmAsciiLoop maxv fuel rest acc2 byteCount
    else .ok acc

/-- Mirrors `read_pgm_ascii`. -/
def read_pgm_ascii (s : List Nat) (width height : Nat) (max_value : Option Nat) :
    Except RunErr ImageData := do
  let bs ← pgmAsciiLoop max_value (s.length + 1) s [] (height * width)
  .ok (ImageData.Graymap8 bs)

/-- Mirrors `read_pgm_binary`, including the source's result tag: the raw
bytes come back wrapped in `ImageData::Bitmap`.  A maxval of 256 or more
hits `unimplemented!`, a panic. -/
def read_pgm_binary (s : List Nat) (width height : Nat) (max_value : Option Nat) :
    Except RunErr ImageData :=
  let size := match max_value with
    | some m => if 256 ≤ m then 2 else 1
    | none => 1
  if size ≠ 1 then .error (.panicked "not implemented")
  else do
    let (buf, _) ← read_exact s (height * width * size)
    .ok (ImageData.Bitmap buf)

/-- The token loop of `read_ppm_ascii`.  The source keeps `rgb_index` and a
three-element `rgb` array across lines and never resets `rgb_index` after
completing a triple, so the fourth sample indexes past the array and
panics; the `3 ≤ rgbIndex` test models that panic. -/
def ppmTokens (maxv : Option Nat) : List (List Nat) →
    List Color8 → Nat → List Nat →
    Except RunErr (List Color8 × Nat × List Nat)
  | [], px, ri, rgb => .ok (px, ri, rgb)
  | t :: ts, px, ri, rgb =>
    match parseU16 t with
    | none => .error (.panicked "Invalid color value")
    | some value =>
      let b := match maxv with
        | some m => f32DivAsU8 value m
        | none => value % 256
      if 3 ≤ ri then .error (.panicked "index out of bounds")
      else
        let rgb2 := rgb.set ri b
        let ri2 := ri + 1
        let px2 := if ri2 = 3 then
            px ++ [⟨rgb2.getD 0 0, rgb2.getD 1 0, rgb2.getD 2 0⟩]
          else px
        ppmTokens maxv ts px2 ri2 rgb2

/-- The line loop of `read_ppm_ascii`. -/
def ppmAsciiLoop (maxv : Option Nat) : Nat → List Nat →
    List Color8 → Nat → List Nat → Nat →
    Except RunErr (List Color8)
  | 0, _, _, _, _, _ => .error .outOfFuel
  | fuel + 1, s, px, ri, rgb, pixelCount =>
    if px.length < pixelCount then do
      let (line, rest) ← nextLine (fuel + 1) s
      let (px2, ri2, rgb2) ← ppmTokens maxv (splitWs line) px ri rgb
      ppmAsciiLoop maxv fuel rest px2 ri2 rgb2 pixelCount
    else .ok px

/-- Mirrors `read_ppm_ascii`. -/
def read_ppm_ascii (s : List Nat) (width height : Nat) (max_value : Option Nat) :
    Except RunErr ImageData := do
  let px ← ppmAsciiLoop max_value (s.length + 1) s [] 0 [0, 0, 0] (height * width)
  .ok (ImageData.Pixmap px)

/-- Mirrors `read_ppm_binary`, including both source defects it carries:
the byte count is `height * width * size` (not three bytes per pixel) and
the result is tagged `ImageData::Bitmap`. -/
def read_ppm_binary (s : List Nat) (width height : Nat) (max_value : Option Nat) :
    Except RunErr ImageData :=
  let size := match max_value with
    | some m => if 256 ≤ m then 2 else 1
    | none => 1
  if size ≠ 1 then .error (.panicked "not implemented")
  else do
    let (buf, _) ← read_exact s (height * width * size)
    .ok (ImageData.Bitmap buf)

/-- Decimal byte rendering of a natural number, as Rust's `Display`. -/
def natRepr (n : Nat) : List Nat := bytes (Nat.repr n)

/-- Mirrors `write_header`. -/
def write_header (magic : String) (width height : Nat) (max_value : Option Nat) :
    List Nat :=
  bytes magic ++ [10] ++ natRepr width ++ [32] ++ natRepr height ++ [10] ++
    (match max_value with
     | some m => natRepr m ++ [10]
     | none => [])

/-- The per-row bit packer of `write_pbm_binary`: a stored value of 0
becomes bit 1, any nonzero value bit 0; bits accumulate most-significant
first, a full byte is emitted every 8 bits, and a final partial byte is
shifted left so the pad bits are zero. -/
def packBits : List Nat → Nat → Nat → List Nat
  | [], byte, bitCount => if 0 < bitCount then [byte * 2 ^ (8 - bitCount)] else []
  | p :: ps, byte, bitCount =>
    let bit := if p ≠ 0 then 0 else 1
    let byte2 := byte * 2 + bit
    if bitCount + 1 = 8 then byte2 :: packBits ps 0 0
    else packBits ps byte2 (bitCount + 1)

/-- Mirrors `write_pbm_binary`: header with magic P4 and no maxval, then
each row packed independently. -/
def write_pbm_binary (width height : Nat) (data : List Nat) : List Nat :=
  write_header "P4" width height none ++
    (List.range height).flatMap (fun y =>
      packBits ((List.range width).map (fun x => data.getD (y * width + x) 0)) 0 0)

/-- Mirrors `write_pbm_ascii`: magic P1, no maxval, then per pixel the
digit 1 for a stored 0 and the digit 0 otherwise, each followed by a
space. -/
def write_pbm_ascii (width height : Nat) (data : List Nat) : List Nat :=
  write_header "P1" width height none ++
    data.flatMap (fun v => if v = 0 then [49, 32] else [48, 32])

/-- Mirrors `write_pgm_binary`: magic P5, maxval 255, raw bytes. -/
def write_pgm_binary (width height : Nat) (data : List Nat) : List Nat :=
  write_header "P5" width height (some 255) ++ data

/-- Mirrors `write_pgm_ascii`: magic P2, maxval 255, each value in decimal
followed by a space. -/
def write_pgm_ascii (width height : Nat) (data : List Nat) : List Nat :=
  write_header "P2" width height (some 255) ++
    data.flatMap (fun v => natRepr v ++ [32])

/-- Mirrors `write_ppm_binary`: magic P6, maxval 255, three raw bytes per
pixel. -/
def write_ppm_binary (width height : Nat) (data : List Color8) : List Nat :=
  write_header "P6" width height (some 255) ++
    data.flatMap (fun p => [p.red, p.green, p.blue])

/-- Mirrors `write_ppm_ascii`: magic P3, maxval 255, the three channel
values in decimal, each followed by a space. -/
def write_ppm_ascii (width height : Nat) (data : List Color8) : List Nat :=
  write_header "P3" width height (some 255) ++
    data.flatMap (fun p =>
      natRepr p.red ++ [32] ++ natRepr p.green ++ [32] ++ natRepr p.blue ++ [32])

/-- Mirrors `Image::write_to`: dispatch on the pixel-buffer shape and the
requested encoding (the `format` field is not consulted).  The sink is a
byte vector, which never fails, so the result is the written stream. -/
def Image.write_to (img : Image) (encoding : Encoding) : List Nat :=
  match img.data, encoding with
  | .Pixmap d, .Binary => write_ppm_binary img.width img.height d
  | .Pixmap d, .Ascii => write_ppm_ascii img.width img.height d
  | .Graymap8 d, .Binary => write_pgm_binary img.width img.height d
  | .Graymap8 d, .Ascii => write_pgm_ascii img.width img.height d
  | .Bitmap d, .Binary => write_pbm_binary img.width img.height d
  | .Bitmap d, .Ascii => write_pbm_ascii img.width img.height d

/-- Mirrors `Image::read_from`: parse the header, look up format and
encoding (`unwrap` panics on an unrecognized magic), dispatch to the body
reader, and assemble the `Image` from the header's format and the
reader's data. -/
def Image.read_from (s : List Nat) : Except RunErr Image := do
  let (magic, width, height, max_value, rest) ← read_header s
  match Format.from_magic_number magic with
  | none => .error (.panicked "unwrap on None")
  | some format =>
    match Encoding.from_magic_number magic with
    | none => .error (.panicked "unwrap on None")
    | some encoding =>
      let data ← match format, encoding with
        | .Bitmap, .Ascii => read_pbm_ascii rest width height
        | .Bitmap, .Binary => read_pbm_binary rest width height
        | .Graymap, .Ascii => read_pgm_ascii rest width height max_value
        | .Graymap, .Binary => read_pgm_binary rest width height max_value
        | .Pixmap, .Ascii => read_ppm_ascii rest width height max_value
        | .Pixmap, .Binary => read_ppm_binary rest width height max_value
      .ok ⟨width, height, format, data⟩

/-- Mirrors `Image::get_pixel`: row-major index into the single-channel
buffer; out-of-bounds indexing and the `unimplemented!` arm for `Pixmap`
are panics, modelled as `none`. -/
def Image.get_pixel (img : Image) (x y : Nat) : Option Nat :=
  match img.data with
  | .Bitmap d => d[y * img.width + x]?
  | .Graymap8 d => d[y * img.width + x]?
  | .Pixmap _ => none

/-- Mirrors `Image::set_pixel`: store the value at the row-major index
(for `Pixmap`, a gray triple); out-of-bounds indexing panics, modelled as
`none`. -/
def Image.set_pixel (img : Image) (x y : Nat) (value : Nat) : Option Image :=
  match img.data with
  | .Bitmap d =>
    if y * img.width + x < d.length then
      some { img with data := .Bitmap (d.set (y * img.width + x) value) }
    else none
  | .Graymap8 d =>
    if y * img.width + x < d.length then
      some { img with data := .Graymap8 (d.set (y * img.width + x) value) }
    else none
  | .Pixmap d =>
    if y * img.width + x < d.length then
      some { img with data := .Pixmap (d.set (y * img.width + x) ⟨value, value, value⟩) }
    else none

/-- `struct Kernel`.  The weights, `f32` in the source, are modelled as
rationals; for every kernel the claims exercise (weights 0 and 1 applied
to samples 0–255) each `f32` operation of the source is exact, so the
rational computation coincides with the floating-point one. -/
structure Kernel where
  size : Nat
  weights : List ℚ

/-- Mirrors `Kernel::new` with its `assert!` on the weight count (the
assertion failure, a panic, is modelled as `none`). -/
def Kernel.new (size : Nat) (weights : List ℚ) : Option Kernel :=
  if weights.length = size * size then some ⟨size, weights⟩ else none

/-- An `f32` value cast `as u8`: truncation toward zero, saturated to
0–255.  For a nonnegative rational the truncation is the floor; negative
values saturate to 0. -/
def ratAsU8 (q : ℚ) : Nat :=
  if q < 0 then 0 else min 255 ⌊q⌋.toNat

/-- The inner `for i in 0..k` accumulation of `Kernel::apply` for one
kernel row `j`.  The source computes `x + i - k / 2` in `usize`, which
panics on underflow (debug build); a weight access out of range would
also panic; both are modelled as `none`. -/
def convRow (k : Kernel) (src : Image) (x y j : Nat) :
    List Nat → ℚ → Option ℚ
  | [], acc => some acc
  | i :: is, acc =>
    if x + i < k.size / 2 ∨ y + j < k.size / 2 then none
    else
      match src.get_pixel (x + i - k.size / 2) (y + j - k.size / 2),
            k.weights[j * k.size + i]? with
      | some p, some w => convRow k src x y j is (acc + (p : ℚ) * w)
      | _, _ => none

/-- The outer `for j in 0..k` accumulation of `Kernel::apply`. -/
def convAll (k : Kernel) (src : Image) (x y : Nat) :
    List Nat → ℚ → Option ℚ
  | [], acc => some acc
  | j :: js, acc =>
    match convRow k src x y j (List.range k.size) acc with
    | some acc2 => convAll k src x y js acc2
    | none => none

/-- The full weighted sum `value` computed for one destination pixel. -/
def convSum (k : Kernel) (src : Image) (x y : Nat) : Option ℚ :=
  convAll k src x y (List.range k.size) 0

/-- The `for x in 1..src.width() - 1` loop body of `Kernel::apply` for one
row `y`: compute the weighted sum and store it through `set_pixel`. -/
def applyCols (k : Kernel) (src : Image) (y : Nat) :
    List Nat → Image → Option Image
  | [], dst => some dst
  | x :: xs, dst =>
    match convSum k src x y with
    | none => none
    | some v =>
      match dst.set_pixel x y (ratAsU8 v) with
      | none => none
      | some dst2 => applyCols k src y xs dst2

/-- The `for y in 1..src.height() - 1` loop of `Kernel::apply`.  The inner
bound `src.width() - 1` is evaluated anew for each row and underflows
(panics) when the width is zero. -/
def applyRows (k : Kernel) (src : Image) :
    List Nat → Image → Option Image
  | [], dst => some dst
  | y :: ys, dst =>
    if src.width = 0 then none
    else
      match applyCols k src y (List.range' 1 (src.width - 2)) dst with
      | none => none
      | some dst2 => applyRows k src ys dst2

/-- Mirrors `Kernel::apply`: assert equal dimensions (panic otherwise),
then sweep the interior coordinates `1 ≤ x ≤ width - 2`,
`1 ≤ y ≤ height - 2`.  Evaluating `src.height() - 1` underflows (panics)
when the height is zero. -/
def Kernel.apply (k : Kernel) (src dst : Image) : Option Image :=
  if src.width = dst.width ∧ src.height = dst.height then
    if src.height = 0 then none
    else applyRows k src (List.range' 1 (src.height - 2)) dst
  else none

/-- The identity kernel of the spec: size 3, all weights zero except the
center. -/
def identityKernel : Kernel := ⟨3, [0, 0, 0, 0, 1, 0, 0, 0, 0]⟩

/-- The single-channel payload of a pixel buffer, when there is one.
`get_pixel` and `set_pixel` treat the `Bitmap` and `Graymap8` shapes
identically, so the kernel lemmas are stated through this projection. -/
def chanData : ImageData → Option (List Nat)
  | .Bitmap d => some d
  | .Graymap8 d => some d
  | .Pixmap _ => none

/-- C1: The format lookup matches the spec's table for all six magic
numbers, but the encoding lookup diverges on P2 and P5: the source maps
P2 to `Binary` and P5 to `Ascii`, the reverse of the spec's table (and of
the source's own encoder, which writes magic P2 with the ascii graymap
writer and magic P5 with the binary one). -/
theorem claim_C1_magic_lookup :
    Format.from_magic_number "P1" = some Format.Bitmap ∧
    Format.from_magic_number "P2" = some Format.Graymap ∧
    Format.from_magic_number "P3" = some Format.Pixmap ∧
    Format.from_magic_number "P4" = some Format.Bitmap ∧
    Format.from_magic_number "P5" = some Format.Graymap ∧
    Format.from_magic_number "P6" = some Format.Pixmap ∧
    Encoding.from_magic_number "P1" = some Encoding.Ascii ∧
    Encoding.from_magic_number "P2" = some Encoding.Binary ∧
    Encoding.from_magic_number "P3" = some Encoding.Ascii ∧
    Encoding.from_magic_number "P4" = some Encoding.Binary ∧
    Encoding.from_magic_number "P5" = some Encoding.Ascii ∧
    Encoding.from_magic_number "P6" = some Encoding.Binary := by
  decide

/-- C2: The encode/decode round trip fails on the code.  For the one-pixel
Graymap image with pixel value 5, the ascii encoding produces the stream
P2 1 1 255 5, whose decode dispatches P2 to the *binary* graymap reader
(the swapped encoding table of C1) and returns a Bitmap-tagged buffer
holding 53 — the code of the digit five — instead of the pixel value 5;
the binary encoding produces a P5 stream, whose decode dispatches to the
*ascii* reader and panics on the raw body byte. -/
theorem claim_C2_roundtrip_fails :
    Image.read_from (Image.write_to ⟨1, 1, Format.Graymap, ImageData.Graymap8 [5]⟩
        Encoding.Ascii) =
      Except.ok ⟨1, 1, Format.Graymap, ImageData.Bitmap [53]⟩ ∧
    ImageData.Bitmap [53] ≠ ImageData.Graymap8 [5] ∧
    Image.read_from (Image.write_to ⟨1, 1, Format.Graymap, ImageData.Graymap8 [5]⟩
        Encoding.Binary) =
      Except.error (RunErr.panicked "Invalid color value") := by
  decide

/-- C3: The binary bitmap reader does consume `height * ceil(width / 8)`
input bytes, but it unpacks least-significant bit first (the spec says
most-significant first) and returns a buffer of twice the pixel count,
because the source pre-allocates `height * width` zeros and then appends
the unpacked bits.  For width 8, height 1 and the single input byte 0x80
the claim demands the 8-pixel buffer 1,0,0,0,0,0,0,0; the code produces
16 entries whose final one is the set bit. -/
theorem claim_C3_pbm_binary_unpack :
    read_pbm_binary [128] 8 1 =
      Except.ok (ImageData.Bitmap
        (List.replicate 8 0 ++ [0, 0, 0, 0, 0, 0, 0, 1])) ∧
    (List.replicate 8 0 ++ [0, 0, 0, 0, 0, 0, 0, 1]).length ≠ 8 * 1 := by
  decide

/-- C4: The binary graymap and pixmap readers tag their result
`ImageData::Bitmap` regardless of the format being decoded, so a decoded
image's buffer shape does not match its format: a P6 stream decodes to an
image whose `format` is `Pixmap` but whose buffer is Bitmap-shaped (and
holds one byte, not one color sample, per pixel). -/
theorem claim_C4_decoders_mistag :
    read_pgm_binary (bytes "A") 1 1 (some 255) =
      Except.ok (ImageData.Bitmap [65]) ∧
    read_ppm_binary (bytes "ABC") 1 1 (some 255) =
      Except.ok (ImageData.Bitmap [65]) ∧
    Image.read_from (bytes "P6\n1 1\n255\nABC") =
      Except.ok ⟨1, 1, Format.Pixmap, ImageData.Bitmap [65]⟩ := by
  decide

/-- C5: With a maxval in the header, the ascii graymap reader stores
`(token as f32 / maxval as f32) as u8` — the truncated plain quotient,
not `round(token * 255 / maxval)`.  For token 128 and maxval 255 the claim
demands the stored sample 128; the code stores 0 (and stores 1 only when
the token equals the maxval). -/
theorem claim_C5_rescale :
    read_pgm_ascii (bytes "128\n") 1 1 (some 255) =
      Except.ok (ImageData.Graymap8 [0]) ∧
    read_pgm_ascii (bytes "255\n") 1 1 (some 255) =
      Except.ok (ImageData.Graymap8 [1]) ∧
    (128 * 255 + 127) / 255 = (128 : Nat) := by
  decide

/-- C6: A non-numeric token in an ascii body does not come back as a
recoverable InvalidPixelValue error: the source calls
`parse().expect("Invalid color value")`, a process abort, modelled by the
`panicked` outcome — in both the graymap and the pixmap ascii readers.
Truncated input does yield UnexpectedEof. -/
theorem claim_C6_ascii_errors :
    read_pgm_ascii (bytes "x\n") 1 1 (some 255) =
      Except.error (RunErr.panicked "Invalid color value") ∧
    read_ppm_ascii (bytes "1 2 x\n") 1 1 (some 255) =
      Except.error (RunErr.panicked "Invalid color value") ∧
    read_pgm_ascii ([] : List Nat) 1 1 (some 255) =
      Except.error RunErr.unexpectedEof := by
  decide

/-- C7: Decoding the spec's concrete P2 stream does not produce the
graymap pixels 0, 128, 255, 64: the swapped encoding table dispatches the
body to the binary graymap reader, which consumes the first four body
bytes as raw samples — the codes of the digit zero, the space, and the
digits one and two — and tags the buffer as Bitmap.  The ascii graymap
*encoder* taken alone does produce exactly the claimed output stream for
those pixel values, and re-encoding the image actually decoded yields a
P1 bitmap stream instead. -/
theorem claim_C7_concrete_scenario :
    Image.read_from (bytes "P2\n2 2\n255\n0 128 255 64\n") =
      Except.ok ⟨2, 2, Format.Graymap, ImageData.Bitmap [48, 32, 49, 50]⟩ ∧
    write_pgm_ascii 2 2 [0, 128, 255, 64] = bytes "P2\n2 2\n255\n0 128 255 64 " ∧
    Image.write_to ⟨2, 2, Format.Graymap, ImageData.Bitmap [48, 32, 49, 50]⟩
        Encoding.Ascii =
      bytes "P1\n2 2\n0 0 0 0 " := by
  decide

/-- C8: Encoding the 3-by-1 bitmap with stored pixels 1, 0, 0 using the
binary encoding yields the header P4 3 1 followed by the single body byte
0x60: the nonzero pixel contributes indicator bit 0 at the top position,
the two zero pixels contribute bit 1, and the five pad bits are zero. -/
theorem claim_C8_pbm_binary_encode :
    Image.write_to ⟨3, 1, Format.Bitmap, ImageData.Bitmap [1, 0, 0]⟩
        Encoding.Binary =
      bytes "P4\n3 1\n" ++ [96] := by
  decide

/-- C10: `write_to` dispatches on the pixel-buffer shape and the encoding
argument alone and never consults the `format` field: replacing the field
by any other value leaves the output unchanged; concretely, an image whose
field says Graymap but whose buffer is Bitmap-shaped is written with the
bitmap writers (magic P1 here). -/
theorem claim_C10_write_ignores_format :
    (∀ (w h : Nat) (f g : Format) (d : ImageData) (e : Encoding),
        Image.write_to ⟨w, h, f, d⟩ e = Image.write_to ⟨w, h, g, d⟩ e) ∧
    Image.write_to ⟨1, 1, Format.Graymap, ImageData.Bitmap [0]⟩ Encoding.Ascii =
      bytes "P1\n1 1\n1 " := by
  refine ⟨fun w h f g d e => ?_, by decide⟩
  cases d <;> cases e <;> rfl

/-- Row-major index injectivity: two in-row coordinates with the same flat
index agree. -/
theorem rowMajorIdx_inj (w a b x y : Nat) (ha : a < w) (hx : x < w)
    (h : b * w + a = y * w + x) : a = x ∧ b = y := by
  have h' : w * b + a = w * y + x := by
    rw [Nat.mul_comm w b, Nat.mul_comm w y]; exact h
  have h1 : (w * b + a) % w = a % w := Nat.mul_add_mod w b a
  have h2 : (w * y + x) % w = x % w := Nat.mul_add_mod w y x
  have hax : a = x := by
    rw [Nat.mod_eq_of_lt ha] at h1
    rw [Nat.mod_eq_of_lt hx] at h2
    rw [← h1, ← h2, h']
  refine ⟨hax, ?_⟩
  subst hax
  have hw : 0 < w := Nat.lt_of_le_of_lt (Nat.zero_le a) ha
  have hmul : w * b = w * y := by omega
  exact Nat.eq_of_mul_eq_mul_left hw hmul

/-- `get_pixel` through the single-channel projection. -/
theorem get_pixel_chan (img : Image) (d : List Nat)
    (h : chanData img.data = some d) (x y : Nat) :
    img.get_pixel x y = d[y * img.width + x]? := by
  rcases img with ⟨w, ht, f, data⟩
  cases data <;> simp_all [chanData, Image.get_pixel]

/-- `set_pixel` through the single-channel projection: an in-bounds write
succeeds, keeps the dimensions and the buffer shape, and updates the flat
index. -/
theorem set_pixel_chan (img : Image) (d : List Nat)
    (hc : chanData img.data = some d) (x y v : Nat)
    (hlt : y * img.width + x < d.length) :
    ∃ img2, img.set_pixel x y v = some img2 ∧
      img2.width = img.width ∧ img2.height = img.height ∧
      chanData img2.data = some (d.set (y * img.width + x) v) := by
  rcases img with ⟨w, ht, f, data⟩
  cases data <;> simp_all [chanData, Image.set_pixel]

/-- In-range coordinates give an in-range flat index. -/
theorem flatIdx_lt (w h a b : Nat) (ha : a < w) (hb : b < h) :
    b * w + a < w * h := by
  have h1 : b * w + a < (b + 1) * w := by
    have : (b + 1) * w = b * w + w := by ring
    omega
  have h2 : (b + 1) * w ≤ h * w := Nat.mul_le_mul_right w hb
  have h3 : h * w = w * h := Nat.mul_comm h w
  omega

/-- Every in-range coordinate of a well-formed single-channel image reads
back some stored value. -/
theorem interior_get (src : Image) (sd : List Nat)
    (hc : chanData src.data = some sd)
    (hsl : sd.length = src.width * src.height)
    (a b : Nat) (ha : a < src.width) (hb : b < src.height) :
    ∃ q, src.get_pixel a b = some q ∧ q ∈ sd := by
  have hidx : b * src.width + a < sd.length := by
    rw [hsl]; exact flatIdx_lt _ _ _ _ ha hb
  refine ⟨sd[b * src.width + a], ?_, List.getElem_mem hidx⟩
  rw [get_pixel_chan src sd hc, List.getElem?_eq_getElem hidx]

/-- The weighted sum of the identity kernel at an interior coordinate is
exactly the center sample. -/
theorem convSum_id_eval (src : Image) (x y : Nat)
    (q00 q10 q20 q01 q11 q21 q02 q12 q22 : Nat)
    (hx : 1 ≤ x) (hy : 1 ≤ y)
    (h00 : src.get_pixel (x - 1) (y - 1) = some q00)
    (h10 : src.get_pixel x (y - 1) = some q10)
    (h20 : src.get_pixel (x + 1) (y - 1) = some q20)
    (h01 : src.get_pixel (x - 1) y = some q01)
    (h11 : src.get_pixel x y = some q11)
    (h21 : src.get_pixel (x + 1) y = some q21)
    (h02 : src.get_pixel (x - 1) (y + 1) = some q02)
    (h12 : src.get_pixel x (y + 1) = some q12)
    (h22 : src.get_pixel (x + 1) (y + 1) = some q22) :
    convSum identityKernel src x y = some (q11 : ℚ) := by
  have hr : List.range 3 = [0, 1, 2] := rfl
  have hx0 : ¬ x < 1 := by omega
  have hy0 : ¬ y < 1 := by omega
  have hx1 : ¬ x + 1 < 1 := by omega
  have hx2 : ¬ x + 2 < 1 := by omega
  have hy1 : ¬ y + 1 < 1 := by omega
  have hy2 : ¬ y + 2 < 1 := by omega
  have e2x : x + 2 - 1 = x + 1 := by omega
  have e2y : y + 2 - 1 = y + 1 := by omega
  simp [convSum, hr, convAll, convRow, identityKernel, Nat.add_zero,
    Nat.add_sub_cancel, e2x, e2y, hx0, hy0, hx1, hx2, hy1, hy2,
    h00, h10, h20, h01, h11, h21, h02, h12, h22]

/-- The `as u8` narrowing of an exact byte-valued sample is the identity. -/
theorem ratAsU8_natCast (n : Nat) (h : n < 256) : ratAsU8 (n : ℚ) = n := by
  have h0 : ¬ ((n : ℚ) < 0) := not_lt.mpr (Nat.cast_nonneg n)
  simp [ratAsU8, h0, Int.floor_natCast]
  omega

/-- Interior x coordinates of one kernel row, as a membership property. -/
theorem mem_range1 (w x : Nat) (hw : 1 ≤ w) :
    x ∈ List.range' 1 (w - 2) ↔ 1 ≤ x ∧ x + 1 < w := by
  rw [List.mem_range']
  constructor
  · rintro ⟨i, hi, rfl⟩; omega
  · rintro ⟨h1, h2⟩; exact ⟨x - 1, by omega, by omega⟩

/-- One row of `Kernel::apply` with the identity kernel: the swept x
coordinates take the source value, everything else keeps the destination
value. -/
theorem applyCols_id (src : Image) (sd : List Nat)
    (hcs : chanData src.data = some sd)
    (hsl : sd.length = src.width * src.height)
    (hs256 : ∀ v ∈ sd, v < 256)
    (y : Nat) (hy1 : 1 ≤ y) (hy2 : y + 1 < src.height)
    (xs : List Nat) :
    ∀ (dst : Image) (dd : List Nat),
      (∀ x ∈ xs, 1 ≤ x ∧ x + 1 < src.width) →
      dst.width = src.width → dst.height = src.height →
      chanData dst.data = some dd → dd.length = src.width * src.height →
      ∃ out od, applyCols identityKernel src y xs dst = some out ∧
        out.width = src.width ∧ out.height = src.height ∧
        chanData out.data = some od ∧ od.length = src.width * src.height ∧
        ∀ a b, a < src.width → b < src.height →
          out.get_pixel a b =
            if b = y ∧ a ∈ xs then src.get_pixel a b else dst.get_pixel a b := by
  induction xs with
  | nil =>
    intro dst dd _ hdw hdh hcd hdl
    refine ⟨dst, dd, rfl, hdw, hdh, hcd, hdl, ?_⟩
    intro a b _ _
    simp
  | cons x xs ih =>
    intro dst dd hxs hdw hdh hcd hdl
    obtain ⟨hx1, hx2⟩ := hxs x (List.mem_cons_self x xs)
    have hxw : x < src.width := by omega
    have hyh : y < src.height := by omega
    obtain ⟨q00, h00, -⟩ :=
      interior_get src sd hcs hsl (x - 1) (y - 1) (by omega) (by omega)
    obtain ⟨q10, h10, -⟩ :=
      interior_get src sd hcs hsl x (y - 1) hxw (by omega)
    obtain ⟨q20, h20, -⟩ :=
      interior_get src sd hcs hsl (x + 1) (y - 1) hx2 (by omega)
    obtain ⟨q01, h01, -⟩ :=
      interior_get src sd hcs hsl (x - 1) y (by omega) hyh
    obtain ⟨q11, h11, hq11mem⟩ :=
      interior_get src sd hcs hsl x y hxw hyh
    obtain ⟨q21, h21, -⟩ :=
      interior_get src sd hcs hsl (x + 1) y hx2 hyh
    obtain ⟨q02, h02, -⟩ :=
      interior_get src sd hcs hsl (x - 1) (y + 1) (by omega) hy2
    obtain ⟨q12, h12, -⟩ :=
      interior_get src sd hcs hsl x (y + 1) hxw hy2
    obtain ⟨q22, h22, -⟩ :=
      interior_get src sd hcs hsl (x + 1) (y + 1) hx2 hy2
    have hconv : convSum identityKernel src x y = some (q11 : ℚ) :=
      convSum_id_eval src x y q00 q10 q20 q01 q11 q21 q02 q12 q22 hx1 hy1
        h00 h10 h20 h01 h11 h21 h02 h12 h22
    have hidx : y * dst.width + x < dd.length := by
      rw [hdw, hdl]; exact flatIdx_lt _ _ _ _ hxw hyh
    obtain ⟨img2, hset, hi2w, hi2h, hi2c⟩ :=
      set_pixel_chan dst dd hcd x y (ratAsU8 (q11 : ℚ)) hidx
    have hv : ratAsU8 (q11 : ℚ) = q11 := ratAsU8_natCast q11 (hs256 q11 hq11mem)
    have hi2l : (dd.set (y * dst.width + x) (ratAsU8 (q11 : ℚ))).length =
        src.width * src.height := by rw [List.length_set, hdl]
    have hget2 : ∀ a b, a < src.width → b < src.height →
        img2.get_pixel a b =
          if a = x ∧ b = y then some q11 else dst.get_pixel a b := by
      intro a b ha hb
      rw [get_pixel_chan img2 _ hi2c, hi2w]
      by_cases hab : a = x ∧ b = y
      · obtain ⟨rfl, rfl⟩ := hab
        rw [if_pos ⟨rfl, rfl⟩, List.getElem?_set_self (by omega), hv]
      · have haw : a < dst.width := by rw [hdw]; exact ha
        have hne : y * dst.width + x ≠ b * dst.width + a := by
          intro he
          obtain ⟨he1, he2⟩ := rowMajorIdx_inj dst.width a b x y haw
            (by rw [hdw]; exact hxw) he.symm
          exact hab ⟨he1, he2⟩
        rw [if_neg hab, List.getElem?_set_ne hne, ← get_pixel_chan dst dd hcd]
    obtain ⟨out, od, happ, h1, h2, h3, h4, hchar⟩ :=
      ih img2 (dd.set (y * dst.width + x) (ratAsU8 (q11 : ℚ)))
        (fun x' hx' => hxs x' (List.mem_cons_of_mem x hx'))
        (hi2w.trans hdw) (hi2h.trans hdh) hi2c hi2l
    refine ⟨out, od, ?_, h1, h2, h3, h4, ?_⟩
    · simp only [applyCols, hconv, hset, happ]
    · intro a b ha hb
      rw [hchar a b ha hb, hget2 a b ha hb]
      by_cases hby : b = y
      · by_cases haxs : a ∈ xs
        · simp [hby, haxs, List.mem_cons]
        · by_cases hax : a = x
          · simp [hby, haxs, hax, List.mem_cons, h11]
          · simp [hby, haxs, hax, List.mem_cons]
      · simp [hby]

/-- The row sweep of `Kernel::apply` with the identity kernel. -/
theorem applyRows_id (src : Image) (sd : List Nat)
    (hcs : chanData src.data = some sd)
    (hsl : sd.length = src.width * src.height)
    (hs256 : ∀ v ∈ sd, v < 256)
    (hw1 : 1 ≤ src.width)
    (ys : List Nat) :
    ∀ (dst : Image) (dd : List Nat),
      (∀ yy ∈ ys, 1 ≤ yy ∧ yy + 1 < src.height) →
      dst.width = src.width → dst.height = src.height →
      chanData dst.data = some dd → dd.length = src.width * src.height →
      ∃ out od, applyRows identityKernel src ys dst = some out ∧
        out.width = src.width ∧ out.height = src.height ∧
        chanData out.data = some od ∧ od.length = src.width * src.height ∧
        ∀ a b, a < src.width → b < src.height →
          out.get_pixel a b =
            if b ∈ ys ∧ 1 ≤ a ∧ a + 1 < src.width then src.get_pixel a b
            else dst.get_pixel a b := by
  induction ys with
  | nil =>
    intro dst dd _ hdw hdh hcd hdl
    refine ⟨dst, dd, rfl, hdw, hdh, hcd, hdl, ?_⟩
    intro a b _ _
    simp
  | cons y ys ih =>
    intro dst dd hys hdw hdh hcd hdl
    obtain ⟨hy1, hy2⟩ := hys y (List.mem_cons_self y ys)
    have hxs : ∀ x ∈ List.range' 1 (src.width - 2), 1 ≤ x ∧ x + 1 < src.width :=
      fun x hx => (mem_range1 src.width x hw1).1 hx
    obtain ⟨img2, dd2, hcols, hi2w, hi2h, hi2c, hi2l, hchar2⟩ :=
      applyCols_id src sd hcs hsl hs256 y hy1 hy2
        (List.range' 1 (src.width - 2)) dst dd hxs hdw hdh hcd hdl
    obtain ⟨out, od, happ, h1, h2, h3, h4, hchar⟩ :=
      ih img2 dd2 (fun y' hy' => hys y' (List.mem_cons_of_mem y hy'))
        hi2w hi2h hi2c hi2l
    have hw0 : ¬ src.width = 0 := by omega
    refine ⟨out, od, ?_, h1, h2, h3, h4, ?_⟩
    · simp only [applyRows, hw0, if_false, hcols, happ]
    · intro a b ha hb
      rw [hchar a b ha hb, hchar2 a b ha hb]
      by_cases hintx : 1 ≤ a ∧ a + 1 < src.width
      · have hmem : a ∈ List.range' 1 (src.width - 2) :=
          (mem_range1 src.width a hw1).2 hintx
        by_cases hbys : b ∈ ys
        · simp [hintx, hbys, List.mem_cons]
        · by_cases hbyy : b = y
          · simp [hintx, hbys, hbyy, hmem, List.mem_cons]
          · simp [hintx, hbys, hbyy, List.mem_cons]
      · have hmem : a ∉ List.range' 1 (src.width - 2) :=
          fun hm => hintx ((mem_range1 src.width a hw1).1 hm)
        simp [hintx, hmem]

/-- C9: Applying the identity kernel (size 3, all weights zero except the
center weight 1) from a well-formed single-channel source to a distinct
single-channel destination of the same dimensions succeeds, sets every
interior destination pixel to the corresponding source pixel, and leaves
every border destination pixel at its pre-existing value.  (An image with
zero width or height has no pixels and makes the source's loop bound
underflow, so positive dimensions are assumed.) -/
theorem claim_C9_identity_kernel (src dst : Image) (sd dd : List Nat)
    (hw : src.width = dst.width) (hh : src.height = dst.height)
    (hcs : chanData src.data = some sd) (hcd : chanData dst.data = some dd)
    (hsl : sd.length = src.width * src.height)
    (hdl : dd.length = dst.width * dst.height)
    (hs256 : ∀ v ∈ sd, v < 256)
    (hw1 : 1 ≤ src.width) (hh1 : 1 ≤ src.height) :
    ∃ out, Kernel.apply identityKernel src dst = some out ∧
      ∀ x y, x < src.width → y < src.height →
        out.get_pixel x y =
          if 1 ≤ x ∧ x + 1 < src.width ∧ 1 ≤ y ∧ y + 1 < src.height
          then src.get_pixel x y
          else dst.get_pixel x y := by
  have hys : ∀ yy ∈ List.range' 1 (src.height - 2),
      1 ≤ yy ∧ yy + 1 < src.height :=
    fun yy hy => (mem_range1 src.height yy hh1).1 hy
  obtain ⟨out, od, happ, h1, h2, h3, h4, hchar⟩ :=
    applyRows_id src sd hcs hsl hs256 hw1 (List.range' 1 (src.height - 2))
      dst dd hys hw.symm hh.symm hcd (by rw [hdl, hw, hh])
  have hh0 : ¬ src.height = 0 := by omega
  refine ⟨out, ?_, ?_⟩
  · simp only [Kernel.apply]
    rw [if_pos ⟨hw, hh⟩, if_neg hh0]
    exact happ
  · intro x y hx hy
    rw [hchar x y hx hy]
    by_cases hcond : 1 ≤ x ∧ x + 1 < src.width ∧ 1 ≤ y ∧ y + 1 < src.height
    · obtain ⟨hx1, hx2, hy1, hy2⟩ := hcond
      have hym : y ∈ List.range' 1 (src.height - 2) :=
        (mem_range1 src.height y hh1).2 ⟨hy1, hy2⟩
      rw [if_pos ⟨hym, hx1, hx2⟩, if_pos ⟨hx1, hx2, hy1, hy2⟩]
    · have hl : ¬ (y ∈ List.range' 1 (src.height - 2) ∧
          1 ≤ x ∧ x + 1 < src.width) := by
        rintro ⟨hym, hx1, hx2⟩
        obtain ⟨hy1, hy2⟩ := (mem_range1 src.height y hh1).1 hym
        exact hcond ⟨hx1, hx2, hy1, hy2⟩
      rw [if_neg hl, if_neg hcond]

/-- Witness for C9: the identity kernel applied to a concrete 3-by-3
graymap over an all-zero destination. -/
theorem claim_C9_witness :
    ∃ out, Kernel.apply identityKernel
        ⟨3, 3, Format.Graymap, ImageData.Graymap8 [10, 20, 30, 40, 50, 60, 70, 80, 90]⟩
        ⟨3, 3, Format.Graymap, ImageData.Graymap8 (List.replicate 9 0)⟩ = some out ∧
      ∀ x y, x < 3 → y < 3 →
        out.get_pixel x y =
          if 1 ≤ x ∧ x + 1 < 3 ∧ 1 ≤ y ∧ y + 1 < 3
          then Image.get_pixel
            ⟨3, 3, Format.Graymap, ImageData.Graymap8 [10, 20, 30, 40, 50, 60, 70, 80, 90]⟩ x y
          else Image.get_pixel
            ⟨3, 3, Format.Graymap, ImageData.Graymap8 (List.replicate 9 0)⟩ x y :=
  claim_C9_identity_kernel
    ⟨3, 3, Format.Graymap, ImageData.Graymap8 [10, 20, 30, 40, 50, 60, 70, 80, 90]⟩
    ⟨3, 3, Format.Graymap, ImageData.Graymap8 (List.replicate 9 0)⟩
    [10, 20, 30, 40, 50, 60, 70, 80, 90] (List.replicate 9 0)
    rfl rfl rfl rfl (by decide) (by decide) (by decide) (by decide) (by decide)
